import Mathlib

/-!
Verification of the core of the lyft Go client library: the credential
set held by the API client, the error taxonomy built from non-2xx HTTP
responses, the two-legged OAuth token normalization, webhook event
decoding, webhook signature verification, and the documented
multi-token dispatch policy.

Conventions of the shallow embedding:

* Go byte slices (`[]byte`, `bytes.Buffer` contents) are `List Nat`,
  one entry per byte.
* Go `time.Duration` is an `Int` counting nanoseconds, as in the Go
  `time` package; `timeSecond` is the value of `time.Second`.
* Calls into `encoding/json` are represented by oracle arguments: the
  decoded value together with the success flag of the decoder, which is
  exactly the pair of outputs the Go call produces. The embedding never
  depends on how JSON text is parsed, only on what the decoder returned.
* HTTP transport is outside the embedding: functions are modelled from
  the point the `*http.Response` (status code, header, body) is in hand.
-/

/-! Credential set (src/client.go). -/

/-- The first index of `target` in `v`, or `-1` when `target` is absent;
the embedding of `indexOf` from src/client.go. -/
def indexOf : List String → String → Int
  | [], _ => -1
  | s :: rest, target =>
    if s = target then 0
    else
      let r := indexOf rest target
      if r = -1 then -1 else r + 1

/-- The Lyft API client of src/client.go, restricted to the fields the
credential-set operations read and write (the transport configuration
fields play no part in any claim). -/
structure Client where
  clientID : String
  clientSecret : String
  accessTokens : List String
  deriving Repr, DecidableEq

/-- `Client.AddToken` of src/client.go: append the access token `t` to
the list of access tokens when it is not already present. -/
def Client.addToken (c : Client) (t : String) : Client :=
  if indexOf c.accessTokens t = -1 then
    { c with accessTokens := c.accessTokens ++ [t] }
  else c

/-- `Client.RemoveToken` of src/client.go: when `t` is present at first
index `idx`, shift the later tokens left by one, blank the final slot and
truncate, which deletes exactly the element at `idx`; when `t` is absent
the client is left as it is. (The Go body writes the shift using the
identifiers `i` and `a`, which are not in scope there; the only
well-scoped reading is `idx` and `c.AccessTokens`, and the embedding
follows that reading.) -/
def Client.removeToken (c : Client) (t : String) : Client :=
  let idx := indexOf c.accessTokens t
  if idx = -1 then c
  else { c with accessTokens := c.accessTokens.eraseIdx idx.toNat }

/-- One mutation of the credential set: a single `AddToken` or
`RemoveToken` call. -/
inductive TokenOp
  | add (t : String)
  | remove (t : String)
  deriving Repr, DecidableEq

/-- Apply one credential-set mutation. -/
def Client.applyOp (c : Client) : TokenOp → Client
  | .add t => c.addToken t
  | .remove t => c.removeToken t

/-- Apply a sequence of credential-set mutations, first to last. -/
def Client.applyOps (c : Client) (ops : List TokenOp) : Client :=
  ops.foldl Client.applyOp c

/-- Every state the client passes through while a sequence of
credential-set mutations runs, the initial and final states included. -/
def Client.states (c : Client) : List TokenOp → List Client
  | [] => [c]
  | op :: ops => c :: (c.applyOp op).states ops

/-! Error taxonomy (src/unnamed/part_008). -/

/-- A Go byte slice, one `Nat` per byte. -/
abbrev ByteString := List Nat

/-- Reason slug constants of src/unnamed/part_008. -/
def InvalidToken : String := "invalid_token"

/-- The reason slug the provider uses for an expired access token. -/
def TokenExpired : String := "token_expired"

/-- Reason slug for a request outside the granted scopes. -/
def InsufficientScope : String := "insufficient_scope"

/-- Reason slug for an unsupported OAuth grant type. -/
def UnsupportedGrantType : String := "unsupported_grant_type"

/-- The wire error envelope `errType` of src/unnamed/part_008: the
`error` slug, the `error_detail` list of key/value maps (a map modelled
as an association list) and the `error_description` text. -/
structure ErrType where
  slug : String
  details : List (List (String × String))
  description : String
  deriving Repr, DecidableEq

/-- The zero `errType` value Go declares before decoding into it. -/
def ErrType.zero : ErrType := ⟨"", [], ""⟩

/-- `StatusError` of src/unnamed/part_008: status code, the response
body captured once into an owned buffer, the resolved reason slug, and
the optional details and description decoded from the body. -/
structure StatusError where
  statusCode : Nat
  responseBody : ByteString
  reason : String
  details : List (List (String × String))
  description : String
  deriving Repr, DecidableEq

/-- `NewStatusError` of src/unnamed/part_008, from the point the
response is in hand. `errorHeaderValues` is the value slice
`rsp.Header["error"]`; `errTyp` and `decodeOk` are the decoded value and
the success flag of `json.NewDecoder(..).Decode(&errTyp)` run on a copy
of the captured body bytes. The reason comes from the first `error`
header value when that header is present with at least one value,
otherwise from the decoded slug when the decode succeeded, otherwise it
is empty; details and description are taken from the decoded value
either way, exactly as the Go code reads `errTyp` unconditionally. -/
def NewStatusError (statusCode : Nat) (errorHeaderValues : List String)
    (body : ByteString) (errTyp : ErrType) (decodeOk : Bool) : StatusError :=
  let e :=
    match errorHeaderValues with
    | v :: _ => v
    | [] => if decodeOk then errTyp.slug else ""
  { statusCode := statusCode
    responseBody := body
    reason := e
    details := errTyp.details
    description := errTyp.description }

/-- The `Error` method of `StatusError` (src/unnamed/part_008): the
reason slug followed by the status code when a reason is present,
otherwise the status code alone. The description never appears. -/
def StatusError.Error (s : StatusError) : String :=
  if s.reason != "" then s.reason ++ ": status code: " ++ toString s.statusCode
  else "status code: " ++ toString s.statusCode

/-! Specialized ride errors (src/rides.go). -/

/-- Modelled from the spec: the base classified-error field pair (reason
slug, human-readable description) that the ride-request and cancel-ride
errors embed. src/rides.go embeds a type named `ErrorInfo` whose own
definition is not among the repository files; the spec describes exactly
these two fields for the base classified error. -/
structure ErrorInfo where
  reason : String
  description : String
  deriving Repr, DecidableEq

/-- `CostTokenInfo` of src/rides.go, the parsed cost/primetime
confirmation payload a ride-request error may carry. -/
structure CostTokenInfo where
  primetimePercentage : String
  primetimeMultiplier : Float
  primetimeToken : String
  costToken : String
  tokenDuration : Int
  errorURI : String
  deriving Repr

/-- `RideRequestError` of src/rides.go: the base error fields plus the
cost payload when the body also parsed as one. -/
structure RideRequestError where
  errorInfo : ErrorInfo
  cost : Option CostTokenInfo
  deriving Repr

/-- The `Error` method of `RideRequestError` (src/rides.go). -/
def RideRequestError.Error (c : RideRequestError) : String :=
  if c.errorInfo.reason != "" && c.errorInfo.description != "" then
    c.errorInfo.reason ++ ": " ++ c.errorInfo.description
  else if c.errorInfo.reason != "" then c.errorInfo.reason
  else if c.errorInfo.description != "" then c.errorInfo.description
  else "<ride request error>"

/-- `CancelRideError` of src/rides.go: the base error fields plus the
refund-token payload when the body also parsed as one. -/
structure CancelRideError where
  errorInfo : ErrorInfo
  amount : Float
  currency : String
  token : String
  tokenDuration : Int
  deriving Repr

/-- The `Error` method of `CancelRideError` (src/rides.go). -/
def CancelRideError.Error (c : CancelRideError) : String :=
  if c.errorInfo.reason != "" && c.errorInfo.description != "" then
    c.errorInfo.reason ++ ": " ++ c.errorInfo.description
  else if c.errorInfo.reason != "" then c.errorInfo.reason
  else if c.errorInfo.description != "" then c.errorInfo.description
  else "<cancel ride error>"

/-- A Go `error` value as the classification predicates see it: a
`*StatusError`, one of the specialized ride errors, or a
transport-level or decode error. The Go type assertion
`err.(*StatusError)` matches only the first constructor. -/
inductive GoError
  | statusError (se : StatusError)
  | rideRequestError (e : RideRequestError)
  | cancelRideError (e : CancelRideError)
  | transportError (msg : String)
  | decodeError (msg : String)

/-- `IsRateLimit` of src/unnamed/part_008: a `*StatusError` whose status
code is 429; false for every other error value. -/
def IsRateLimit : GoError → Bool
  | .statusError se => se.statusCode == 429
  | _ => false

/-- `IsTokenExpired` of src/unnamed/part_008: a `*StatusError` whose
status code is 401 with an empty captured body, or whose reason is the
token-expired slug; false for every other error value. -/
def IsTokenExpired : GoError → Bool
  | .statusError se =>
    (se.statusCode == 401 && se.responseBody.length == 0) || se.reason == TokenExpired
  | _ => false

/-! Spec-side statements, written from the words of the specification,
to be compared with the embedded code. -/

/-- The reason-resolution rule as the spec states it: the `error` header
field of the response when that field is present and non-empty (its
value slice holds at least one value), otherwise the error slug the JSON
body decoded to, otherwise the empty string. -/
def specReasonResolution (errorHeaderValues : List String) (errTyp : ErrType)
    (decodeOk : Bool) : String :=
  if errorHeaderValues ≠ [] then errorHeaderValues.headD ""
  else if decodeOk then errTyp.slug else ""

/-- The error-message rendering rule as the spec states it: when both
reason and description are present join them as "reason: description",
otherwise whichever of the two is present, otherwise a fallback. -/
def specErrorMessage (reason description fallback : String) : String :=
  if reason ≠ "" ∧ description ≠ "" then reason ++ ": " ++ description
  else if reason ≠ "" then reason
  else if description ≠ "" then description
  else fallback

/-! Two-legged OAuth flow (src/auth/twoleg/twoleg.go). -/

/-- The Go `time.Second` duration value, in nanoseconds. -/
def timeSecond : Int := 1000000000

/-- The wire shape of a two-legged token response
(src/auth/twoleg/twoleg.go, lowercase `generateTokenResponse`):
`expires_in` is an integer count of seconds, `scope` a space-delimited
string. -/
structure generateTokenResponse where
  accessToken : String
  tokenType : String
  expires : Int
  scopes : String
  deriving Repr, DecidableEq

/-- The public result of the two-legged flow
(src/auth/twoleg/twoleg.go, `GenerateTokenResponse`): the expiry is a
duration and the scopes a list. -/
structure GenerateTokenResponse where
  accessToken : String
  tokenType : String
  expires : Int
  scopes : List String
  deriving Repr, DecidableEq

/-- The white-space test of Go `unicode.IsSpace` restricted to the
Latin-1 range it documents: tab, newline, vertical tab, form feed,
carriage return, space, next line and no-break space. (Scope strings of
this API only ever contain the plain space separator.) -/
def isGoSpace (c : Char) : Bool :=
  c == ' ' || c == '\t' || c == '\n' || c == Char.ofNat 11 || c == Char.ofNat 12 ||
    c == '\r' || c == Char.ofNat 133 || c == Char.ofNat 160

/-- Split a character list at white-space characters, keeping the empty
chunks that adjacent separators produce; the splitting core of Go
`strings.Fields`. -/
def splitFields : List Char → List (List Char)
  | [] => [[]]
  | c :: cs =>
    if isGoSpace c then [] :: splitFields cs
    else (splitFields cs).modifyHead (fun f => c :: f)

/-- Go `strings.Fields`: the maximal runs of non-white-space characters
of `s`, in order; equivalently the non-empty chunks of `splitFields`. -/
def stringsFields (s : String) : List String :=
  ((splitFields s.toList).filter (fun f => !f.isEmpty)).map (fun f => String.mk f)

/-- Spec-side: join a list of words with single spaces, the shape of a
space-delimited scope string. -/
def joinSpaceSeparated : List String → String
  | [] => ""
  | [w] => w
  | w :: ws => w ++ " " ++ joinSpaceSeparated ws

/-- `GenerateToken` of src/auth/twoleg/twoleg.go from the point the HTTP
response is in hand (request building and the transport round trip are
outside the embedding; a transport error would have been returned before
this point). A non-200 status yields the `StatusError` built from the
response; on 200 the body is decoded (`tokenBody` is the decode oracle:
`none` is a decode failure, returned as a decode error) and the wire
fields are normalized: `expires_in` seconds become the duration
`time.Second * expires` and the scope string is split with
`strings.Fields`. -/
def GenerateToken (statusCode : Nat) (errorHeaderValues : List String)
    (body : ByteString) (errTyp : ErrType) (errDecodeOk : Bool)
    (tokenBody : Option generateTokenResponse) :
    Except GoError GenerateTokenResponse :=
  if statusCode ≠ 200 then
    .error (.statusError (NewStatusError statusCode errorHeaderValues body errTyp errDecodeOk))
  else
    match tokenBody with
    | none => .error (.decodeError "json decode error")
    | some g =>
      .ok { accessToken := g.accessToken
            tokenType := g.tokenType
            expires := timeSecond * g.expires
            scopes := stringsFields g.scopes }

/-! Webhook events (src/webhook/webhook.go). -/

/-- The prefix that marks a sandbox event identifier
(src/webhook/webhook.go, `SandboxEventPrefix`). -/
def SandboxEventPrefix : String := "sandboxevent"

/-- Modelled from the spec: the inner domain payload type
`lyft.RideDetail` carried by a webhook event. Its definition is not
among the repository files, and no claim inspects it; the embedding
carries it through opaquely as a bag of fields. -/
structure RideDetail where
  fields : List (String × String)
  deriving Repr, DecidableEq

/-- A decoded webhook event (src/webhook/webhook.go, `Event`). The
occurrence time is `none` while the field still holds its zero value. -/
structure Event where
  eventID : String
  url : String
  occurred : Option Nat
  eventType : String
  detail : RideDetail
  deriving Repr, DecidableEq

/-- The auxiliary wire struct `event` inside `Event.UnmarshalJSON`
(src/webhook/webhook.go): the JSON fields `event_id`, `href`,
`occurred_at` (still a string), `event_type` and `event`. -/
structure wireEvent where
  eventID : String
  href : String
  occurredAt : String
  eventType : String
  detail : RideDetail
  deriving Repr, DecidableEq

/-- Go `strings.HasPrefix`: whether `pre` is a prefix of `s`. -/
def stringHasPrefix (s pre : String) : Bool :=
  pre.toList.isPrefixOf s.toList

/-- `Event.UnmarshalJSON` of src/webhook/webhook.go, from the point the
JSON body has been decoded to the auxiliary struct `aux` (`parseTime`
stands for `time.Parse(lyft.TimeLayout, ..)`, with `none` a parse
error). The Go body assigns, in this order: `e.EventID = aux.EventID`,
`e.URL = aux.URL`, the conditional parse of `Occurred` when
`aux.Occurred` is non-empty (a parse failure returns the error), then
`e.EventID = aux.EventType` — overwriting the event id with the event
type and leaving `e.EventType` at its zero value — and finally
`e.Detail = aux.Detail`. The embedding reproduces that net effect
field for field. -/
def Event.UnmarshalJSON (parseTime : String → Option Nat) (aux : wireEvent) :
    Option Event :=
  if aux.occurredAt ≠ "" then
    match parseTime aux.occurredAt with
    | none => none
    | some o =>
      some { eventID := aux.eventType, url := aux.href, occurred := some o,
             eventType := "", detail := aux.detail }
  else
    some { eventID := aux.eventType, url := aux.href, occurred := none,
           eventType := "", detail := aux.detail }

/-- `Event.IsSandbox` of src/webhook/webhook.go: a prefix test of the
sandbox marker against the event id field. -/
def Event.IsSandbox (e : Event) : Bool :=
  stringHasPrefix e.eventID SandboxEventPrefix

/-! Multi-token dispatch. -/

/-- The outcome of attempting a request once with one access token: an
HTTP response with its status code and body, or a transport-level
error. -/
inductive Outcome
  | response (statusCode : Nat) (body : ByteString)
  | transportError (msg : String)
  deriving Repr, DecidableEq

/-- Whether an outcome is a response with a status other than 401; a
transport error produces no response at all. -/
def Outcome.isNon401Response : Outcome → Bool
  | .response sc _ => sc != 401
  | .transportError _ => false

/-- Modelled from the spec: the multi-token dispatch loop of `send` —
attempt the request with each held token in insertion order until one
attempt produces a non-401 response, or all tokens are exhausted, in
which case the outcome of the last attempt (response or error) is
returned. src/client.go declares the ordered `AccessTokens` credential
set this loop draws from, but the repository files do not contain the
loop itself, so it is modelled from the words of the spec. `attempt t`
is the outcome of one authorized attempt with token `t`; `none` is
returned only when no token is held at all. -/
def sendLoop (attempt : String → Outcome) : List String → Option Outcome
  | [] => none
  | [t] => some (attempt t)
  | t :: t2 :: ts =>
    if (attempt t).isNon401Response then some (attempt t)
    else sendLoop attempt (t2 :: ts)

/-- The tokens `sendLoop` actually tries, in order: every token up to
and including the first whose attempt produces a non-401 response, or
all of them when no attempt does. -/
def sendAttempts (attempt : String → Outcome) : List String → List String
  | [] => []
  | [t] => [t]
  | t :: t2 :: ts =>
    if (attempt t).isNon401Response then [t]
    else t :: sendAttempts attempt (t2 :: ts)

/-- Modelled from the spec: `send` dispatches over the credential set of
the client in insertion order. -/
def Client.send (c : Client) (attempt : String → Outcome) : Option Outcome :=
  sendLoop attempt c.accessTokens

/-! Webhook signature verification (src/webhook/webhook.go), with the
Go standard library primitives it calls embedded in full: SHA-256
(crypto/sha256, per FIPS 180-4), HMAC (crypto/hmac) and standard
base64 (encoding/base64). Words are Nat values kept below 2^32 by
explicit reduction. -/

/-- Reduce a value to a 32-bit word. -/
def w32 (n : Nat) : Nat := n % 4294967296

/-- Right rotation of a 32-bit word by `n` bits. -/
def rotr32 (n x : Nat) : Nat := w32 ((x >>> n) ||| (x <<< (32 - n)))

/-- Bitwise complement of a 32-bit word. -/
def not32 (x : Nat) : Nat := x ^^^ 4294967295

/-- The SHA-256 choice function. -/
def shaCh (x y z : Nat) : Nat := (x &&& y) ^^^ (not32 x &&& z)

/-- The SHA-256 majority function. -/
def shaMaj (x y z : Nat) : Nat := (x &&& y) ^^^ (x &&& z) ^^^ (y &&& z)

/-- The SHA-256 big sigma function of the first working variable. -/
def shaS0 (x : Nat) : Nat := rotr32 2 x ^^^ rotr32 13 x ^^^ rotr32 22 x

/-- The SHA-256 big sigma function of the fifth working variable. -/
def shaS1 (x : Nat) : Nat := rotr32 6 x ^^^ rotr32 11 x ^^^ rotr32 25 x

/-- The first SHA-256 small sigma function (message schedule). -/
def shaSig0 (x : Nat) : Nat := rotr32 7 x ^^^ rotr32 18 x ^^^ (x >>> 3)

/-- The second SHA-256 small sigma function (message schedule). -/
def shaSig1 (x : Nat) : Nat := rotr32 17 x ^^^ rotr32 19 x ^^^ (x >>> 10)

/-- The 64 SHA-256 round constants (FIPS 180-4, in decimal). -/
def shaK : List Nat :=
  [1116352408, 1899447441, 3049323471, 3921009573,
   961987163, 1508970993, 2453635748, 2870763221,
   3624381080, 310598401, 607225278, 1426881987,
   1925078388, 2162078206, 2614888103, 3248222580,
   3835390401, 4022224774, 264347078, 604807628,
   770255983, 1249150122, 1555081692, 1996064986,
   2554220882, 2821834349, 2952996808, 3210313671,
   3336571891, 3584528711, 113926993, 338241895,
   666307205, 773529912, 1294757372, 1396182291,
   1695183700, 1986661051, 2177026350, 2456956037,
   2730485921, 2820302411, 3259730800, 3345764771,
   3516065817, 3600352804, 4094571909, 275423344,
   430227734, 506948616, 659060556, 883997877,
   958139571, 1322822218, 1537002063, 1747873779,
   1955562222, 2024104815, 2227730452, 2361852424,
   2428436474, 2756734187, 3204031479, 3329325298]

/-- The SHA-256 initial hash value (in decimal). -/
def shaH0 : List Nat :=
  [1779033703, 3144134277, 1013904242, 2773480762,
   1359893119, 2600822924, 528734635, 1541459225]

/-- Big-endian bytes of a 64-bit value (the padded bit length). -/
def be64 (n : Nat) : List Nat :=
  [n / 72057594037927936 % 256, n / 281474976710656 % 256,
   n / 1099511627776 % 256, n / 4294967296 % 256,
   n / 16777216 % 256, n / 65536 % 256, n / 256 % 256, n % 256]

/-- Big-endian bytes of a 32-bit word. -/
def wordBytes (w : Nat) : List Nat :=
  [w / 16777216 % 256, w / 65536 % 256, w / 256 % 256, w % 256]

/-- SHA-256 padding: append a 0x80 byte, zero bytes, then the bit
length as 64 bits big-endian, reaching a multiple of 64 bytes. -/
def shaPad (msg : List Nat) : List Nat :=
  msg ++ 128 :: List.replicate ((119 - msg.length % 64) % 64) 0 ++
    be64 ((8 * msg.length) % 18446744073709551616)

/-- Split a byte list into chunks of `n` (for positive `n`). -/
def chunks (n : Nat) (l : List Nat) : List (List Nat) :=
  if h : l = [] ∨ n = 0 then []
  else l.take n :: chunks n (l.drop n)
termination_by l.length
decreasing_by
  rw [List.length_drop]
  rcases not_or.mp h with ⟨hl, hn⟩
  have hpos : 0 < l.length := List.length_pos.mpr hl
  omega

/-- Assemble four big-endian bytes into a word. -/
def bytesToWord (g : List Nat) : Nat := g.foldl (fun a b => a * 256 + b) 0

/-- Message-schedule extension: the accumulator holds the words
produced so far, most recent first; each step adds one word from the
words 2, 7, 15 and 16 places back. -/
def extendLoop : Nat → List Nat → List Nat
  | 0, acc => acc
  | n + 1, acc =>
    let nw := (shaSig1 (acc.getD 1 0) + acc.getD 6 0 + shaSig0 (acc.getD 14 0) +
      acc.getD 15 0) % 4294967296
    extendLoop n (nw :: acc)

/-- The 64-word message schedule of one block. -/
def schedule (ws : List Nat) : List Nat := (extendLoop 48 ws.reverse).reverse

/-- One SHA-256 round on the eight working variables. -/
def compressStep : List Nat → Nat × Nat → List Nat
  | [a, b, c, d, e, f, g, h], (k, w) =>
    let t1 := (h + shaS1 e + shaCh e f g + k + w) % 4294967296
    let t2 := (shaS0 a + shaMaj a b c) % 4294967296
    [(t1 + t2) % 4294967296, a, b, c, (d + t1) % 4294967296, e, f, g]
  | st, _ => st

/-- Process one 64-byte block: run 64 rounds from the incoming hash
value and add the result back into it. -/
def compressBlock (hs : List Nat) (block : List Nat) : List Nat :=
  let ws := schedule ((chunks 4 block).map bytesToWord)
  let st := (shaK.zip ws).foldl compressStep hs
  (hs.zip st).map (fun p => (p.1 + p.2) % 4294967296)

/-- SHA-256 of a byte list (crypto/sha256): pad, compress each block,
serialize the eight hash words big-endian. -/
def sha256 (msg : List Nat) : List Nat :=
  ((chunks 64 (shaPad msg)).foldl compressBlock shaH0).foldr
    (fun w acc => wordBytes w ++ acc) []

/-- HMAC-SHA256 (crypto/hmac): keys longer than the 64-byte block are
hashed first, the key is zero-padded to the block size, and the nested
hash runs with the 0x5c outer and 0x36 inner pads. -/
def hmacSha256 (key msg : List Nat) : List Nat :=
  let k0 := if 64 < key.length then sha256 key else key
  let k := k0 ++ List.replicate (64 - k0.length) 0
  sha256 ((k.map (fun b => b ^^^ 92)) ++ sha256 ((k.map (fun b => b ^^^ 54)) ++ msg))

/-- The standard base64 alphabet. -/
def base64Alphabet : List Char :=
  "ABCDEFGHIJKLMNOPQRSTUVWXYZabcdefghijklmnopqrstuvwxyz0123456789+/".toList

/-- The alphabet character of a 6-bit value. -/
def b64char (n : Nat) : Char := base64Alphabet.getD n '?'

/-- Standard base64 encoding with padding (encoding/base64,
StdEncoding): three bytes at a time into four characters; one or two
trailing bytes pad with `=`. -/
def base64Chars : List Nat → List Char
  | [] => []
  | [b1] => [b64char (b1 / 4), b64char (b1 % 4 * 16), '=', '=']
  | [b1, b2] =>
    [b64char (b1 / 4), b64char (b1 % 4 * 16 + b2 / 16), b64char (b2 % 16 * 4), '=']
  | b1 :: b2 :: b3 :: rest =>
    b64char (b1 / 4) :: b64char (b1 % 4 * 16 + b2 / 16) ::
      b64char (b2 % 16 * 4 + b3 / 64) :: b64char (b3 % 64) :: base64Chars rest

/-- `EncodeToString` of encoding/base64 StdEncoding. -/
def base64StdEncode (bs : List Nat) : String := String.mk (base64Chars bs)

/-- The bytes of a string under the Go `[]byte` conversion. Base64
output is ASCII, where UTF-8 bytes and code points coincide. -/
def stringBytes (s : String) : List Nat := s.toList.map Char.toNat

/-- `hmac.Equal` of crypto/hmac: a constant-time comparison whose value
is equality of the two byte slices. -/
def hmacEqual (a b : List Nat) : Bool := a == b

/-- `VerifySignature` of src/webhook/webhook.go: compute HMAC-SHA256
over the body keyed by the verification token, base64-encode the
digest, and compare its bytes to the signature with `hmac.Equal`. -/
def VerifySignature (responseBody signature verificationToken : List Nat) : Bool :=
  hmacEqual
    (stringBytes (base64StdEncode (hmacSha256 verificationToken responseBody)))
    signature

/-! Lemmas about the credential set. -/

/-- Unfolding of `indexOf` at a cons cell. -/
theorem indexOf_cons (s : String) (rest : List String) (t : String) :
    indexOf (s :: rest) t =
      if s = t then 0
      else if indexOf rest t = -1 then -1 else indexOf rest t + 1 := rfl

/-- `indexOf` yields `-1` or a position, never another negative. -/
theorem indexOf_neg_or_nonneg (v : List String) (t : String) :
    indexOf v t = -1 ∨ 0 ≤ indexOf v t := by
  induction v with
  | nil => exact Or.inl rfl
  | cons s rest ih =>
    rw [indexOf_cons]
    by_cases hs : s = t
    · right; rw [if_pos hs]
    · rcases ih with h | h
      · left; rw [if_neg hs, if_pos h]
      · right
        have hne : indexOf rest t ≠ -1 := by omega
        rw [if_neg hs, if_neg hne]; omega

/-- `indexOf` reports `-1` exactly for absent targets. -/
theorem indexOf_eq_neg_one_iff (v : List String) (t : String) :
    indexOf v t = -1 ↔ t ∉ v := by
  induction v with
  | nil => exact iff_of_true rfl (List.not_mem_nil t)
  | cons s rest ih =>
    rw [indexOf_cons]
    by_cases hs : s = t
    · simp [hs]
    · rcases indexOf_neg_or_nonneg rest t with h | h
      · rw [if_neg hs, if_pos h]
        simp [Ne.symm hs, ih.mp h]
      · have hne : indexOf rest t ≠ -1 := by omega
        rw [if_neg hs, if_neg hne]
        have hmem : t ∈ rest := by
          by_contra hh
          exact hne (ih.mpr hh)
        constructor
        · intro hcontra; omega
        · intro hcontra
          exact absurd (List.mem_cons_of_mem s hmem) hcontra

/-- Deleting the index `indexOf` found is erasing the first occurrence. -/
theorem eraseIdx_indexOf_eq_erase (v : List String) (t : String) (h : t ∈ v) :
    v.eraseIdx (indexOf v t).toNat = v.erase t := by
  induction v with
  | nil => cases h
  | cons s rest ih =>
    by_cases hs : s = t
    · subst hs
      rw [indexOf_cons, if_pos rfl]
      simp [List.erase_cons_head]
    · have ht : t ∈ rest := by
        rcases List.mem_cons.mp h with h1 | h1
        · exact absurd h1.symm hs
        · exact h1
      have hne : indexOf rest t ≠ -1 := fun hh =>
        (indexOf_eq_neg_one_iff rest t).mp hh ht
      have hnn : 0 ≤ indexOf rest t :=
        (indexOf_neg_or_nonneg rest t).resolve_left hne
      rw [indexOf_cons, if_neg hs, if_neg hne]
      have htn : (indexOf rest t + 1).toNat = (indexOf rest t).toNat + 1 := by omega
      rw [htn, List.eraseIdx_cons_succ, ih ht,
        List.erase_cons_tail (by simp [hs])]

/-- The access-token list after `addToken`. -/
theorem addToken_accessTokens (c : Client) (t : String) :
    (c.addToken t).accessTokens =
      if t ∈ c.accessTokens then c.accessTokens else c.accessTokens ++ [t] := by
  unfold Client.addToken
  by_cases hm : t ∈ c.accessTokens
  · rw [if_neg (fun hh => (indexOf_eq_neg_one_iff _ _).mp hh hm), if_pos hm]
  · rw [if_pos ((indexOf_eq_neg_one_iff _ _).mpr hm), if_neg hm]

/-- The access-token list after `removeToken`. -/
theorem removeToken_accessTokens (c : Client) (t : String) :
    (c.removeToken t).accessTokens =
      if t ∈ c.accessTokens then c.accessTokens.erase t else c.accessTokens := by
  unfold Client.removeToken
  by_cases hm : t ∈ c.accessTokens
  · rw [if_neg (fun hh => (indexOf_eq_neg_one_iff _ _).mp hh hm), if_pos hm]
    exact eraseIdx_indexOf_eq_erase _ _ hm
  · rw [if_pos ((indexOf_eq_neg_one_iff _ _).mpr hm), if_neg hm]

/-- `addToken` preserves freedom from duplicates. -/
theorem addToken_nodup (c : Client) (t : String) (h : c.accessTokens.Nodup) :
    (c.addToken t).accessTokens.Nodup := by
  rw [addToken_accessTokens]
  by_cases hm : t ∈ c.accessTokens
  · rwa [if_pos hm]
  · rw [if_neg hm, List.nodup_append]
    refine ⟨h, List.nodup_singleton t, fun x hx hx' => ?_⟩
    rw [List.mem_singleton] at hx'
    subst hx'
    exact hm hx

/-- `removeToken` preserves freedom from duplicates. -/
theorem removeToken_nodup (c : Client) (t : String) (h : c.accessTokens.Nodup) :
    (c.removeToken t).accessTokens.Nodup := by
  rw [removeToken_accessTokens]
  by_cases hm : t ∈ c.accessTokens
  · rw [if_pos hm]; exact h.erase t
  · rwa [if_neg hm]

/-- Every credential-set mutation preserves freedom from duplicates. -/
theorem applyOp_nodup (c : Client) (op : TokenOp) (h : c.accessTokens.Nodup) :
    (c.applyOp op).accessTokens.Nodup := by
  cases op with
  | add t => exact addToken_nodup c t h
  | remove t => exact removeToken_nodup c t h

/-- A sublist of a duplicate-free list keeps the relative order of the
elements it retains: for members of the sublist, position comparisons
agree between the two lists. -/
theorem sublist_indexOf_lt_iff {l₁ l₂ : List String} (hs : l₁.Sublist l₂)
    (hnd : l₂.Nodup) {x y : String} (hx : x ∈ l₁) (hy : y ∈ l₁) :
    (List.indexOf x l₁ < List.indexOf y l₁ ↔
      List.indexOf x l₂ < List.indexOf y l₂) := by
  induction hs with
  | slnil => cases hx
  | @cons l₁ l₂ a hs ih =>
    have hna : a ∉ l₂ := (List.nodup_cons.mp hnd).1
    have hnd₂ : l₂.Nodup := (List.nodup_cons.mp hnd).2
    have hxa : a ≠ x := fun hh => hna (hh ▸ hs.subset hx)
    have hya : a ≠ y := fun hh => hna (hh ▸ hs.subset hy)
    rw [List.indexOf_cons_ne _ hxa, List.indexOf_cons_ne _ hya,
      Nat.succ_lt_succ_iff]
    exact ih hnd₂ hx hy
  | @cons₂ l₁ l₂ a hs ih =>
    have hna : a ∉ l₂ := (List.nodup_cons.mp hnd).1
    have hnd₂ : l₂.Nodup := (List.nodup_cons.mp hnd).2
    by_cases hxa : x = a
    · subst hxa
      by_cases hya : y = x
      · subst hya; simp [List.indexOf_cons_self]
      · rw [List.indexOf_cons_self, List.indexOf_cons_self,
          List.indexOf_cons_ne _ (fun hh => hya hh.symm),
          List.indexOf_cons_ne _ (fun hh => hya hh.symm)]
        simp [Nat.succ_pos]
    · by_cases hya : y = a
      · subst hya
        rw [List.indexOf_cons_self, List.indexOf_cons_self,
          List.indexOf_cons_ne _ (fun hh => hxa hh.symm),
          List.indexOf_cons_ne _ (fun hh => hxa hh.symm)]
        simp
      · have hx' : x ∈ l₁ := by
          rcases List.mem_cons.mp hx with h1 | h1
          · exact absurd h1 hxa
          · exact h1
        have hy' : y ∈ l₁ := by
          rcases List.mem_cons.mp hy with h1 | h1
          · exact absurd h1 hya
          · exact h1
        rw [List.indexOf_cons_ne _ (fun hh => hxa hh.symm),
          List.indexOf_cons_ne _ (fun hh => hya hh.symm),
          List.indexOf_cons_ne _ (fun hh => hxa hh.symm),
          List.indexOf_cons_ne _ (fun hh => hya hh.symm),
          Nat.succ_lt_succ_iff, Nat.succ_lt_succ_iff]
        exact ih hnd₂ hx' hy'

/-- One credential-set mutation keeps the relative order of the tokens
present both before and after it. -/
theorem applyOp_indexOf_lt_iff (c : Client) (op : TokenOp)
    (hnd : c.accessTokens.Nodup) {x y : String}
    (hx : x ∈ c.accessTokens) (hy : y ∈ c.accessTokens)
    (hx' : x ∈ (c.applyOp op).accessTokens)
    (hy' : y ∈ (c.applyOp op).accessTokens) :
    (List.indexOf x c.accessTokens < List.indexOf y c.accessTokens ↔
      List.indexOf x (c.applyOp op).accessTokens <
        List.indexOf y (c.applyOp op).accessTokens) := by
  cases op with
  | add t =>
    show _ ↔ List.indexOf x (c.addToken t).accessTokens <
      List.indexOf y (c.addToken t).accessTokens
    rw [addToken_accessTokens]
    by_cases hm : t ∈ c.accessTokens
    · rw [if_pos hm]
    · rw [if_neg hm]
      have hnd2 : (c.accessTokens ++ [t]).Nodup := by
        rw [List.nodup_append]
        refine ⟨hnd, List.nodup_singleton t, fun z hz hz' => ?_⟩
        rw [List.mem_singleton] at hz'
        subst hz'
        exact hm hz
      exact sublist_indexOf_lt_iff (List.sublist_append_left _ _) hnd2 hx hy
  | remove t =>
    show _ ↔ List.indexOf x (c.removeToken t).accessTokens <
      List.indexOf y (c.removeToken t).accessTokens
    rw [removeToken_accessTokens]
    by_cases hm : t ∈ c.accessTokens
    · rw [if_pos hm]
      have hx2 : x ∈ c.accessTokens.erase t := by
        have := hx'
        rw [show (c.applyOp (.remove t)) = c.removeToken t from rfl,
          removeToken_accessTokens, if_pos hm] at this
        exact this
      have hy2 : y ∈ c.accessTokens.erase t := by
        have := hy'
        rw [show (c.applyOp (.remove t)) = c.removeToken t from rfl,
          removeToken_accessTokens, if_pos hm] at this
        exact this
      exact (sublist_indexOf_lt_iff (List.erase_sublist t c.accessTokens)
        hnd hx2 hy2).symm
    · rw [if_neg hm]

/-- A client is the first entry of its own state trace. -/
theorem self_mem_states (c : Client) (ops : List TokenOp) : c ∈ c.states ops := by
  cases ops with
  | nil => exact List.mem_singleton.mpr rfl
  | cons op ops => exact List.mem_cons_self c _

/-- Applying a non-empty sequence is one step and then the rest. -/
theorem applyOps_cons (c : Client) (op : TokenOp) (ops : List TokenOp) :
    c.applyOps (op :: ops) = (c.applyOp op).applyOps ops := rfl

/-- C9: starting from a duplicate-free credential set, any sequence of
AddToken and RemoveToken operations leaves the set duplicate-free, and
the tokens that remain in the set throughout the sequence (present in
every intermediate state) keep their relative order between the initial
and the final state. -/
theorem C9_credential_set_invariants (c : Client) (ops : List TokenOp)
    (hnd : c.accessTokens.Nodup) :
    (c.applyOps ops).accessTokens.Nodup ∧
    ∀ x y : String,
      (∀ s ∈ c.states ops, x ∈ s.accessTokens) →
      (∀ s ∈ c.states ops, y ∈ s.accessTokens) →
      (List.indexOf x c.accessTokens < List.indexOf y c.accessTokens ↔
        List.indexOf x (c.applyOps ops).accessTokens <
          List.indexOf y (c.applyOps ops).accessTokens) := by
  induction ops generalizing c with
  | nil => exact ⟨hnd, fun x y _ _ => Iff.rfl⟩
  | cons op ops ih =>
    have hnd' : (c.applyOp op).accessTokens.Nodup := applyOp_nodup c op hnd
    have rest := ih (c.applyOp op) hnd'
    refine ⟨rest.1, fun x y hx hy => ?_⟩
    have hxc : x ∈ c.accessTokens := by
      have := hx c (by exact List.mem_cons_self c _)
      exact this
    have hyc : y ∈ c.accessTokens := hy c (List.mem_cons_self c _)
    have hx1 : x ∈ (c.applyOp op).accessTokens :=
      hx (c.applyOp op) (List.mem_cons_of_mem c (self_mem_states _ ops))
    have hy1 : y ∈ (c.applyOp op).accessTokens :=
      hy (c.applyOp op) (List.mem_cons_of_mem c (self_mem_states _ ops))
    have hx2 : ∀ s ∈ (c.applyOp op).states ops, x ∈ s.accessTokens :=
      fun s hs => hx s (List.mem_cons_of_mem c hs)
    have hy2 : ∀ s ∈ (c.applyOp op).states ops, y ∈ s.accessTokens :=
      fun s hs => hy s (List.mem_cons_of_mem c hs)
    rw [applyOps_cons]
    exact (applyOp_indexOf_lt_iff c op hnd hxc hyc hx1 hy1).trans
      (rest.2 x y hx2 hy2)

/-- Witness for C9 at a concrete credential set and operation
sequence. -/
theorem C9_witness :
    ((Client.mk "id" "secret" ["A", "B", "C"]).applyOps
        [TokenOp.add "D", TokenOp.remove "B"]).accessTokens.Nodup ∧
    (List.indexOf "A" ["A", "B", "C"] < List.indexOf "C" ["A", "B", "C"] ↔
      List.indexOf "A" ((Client.mk "id" "secret" ["A", "B", "C"]).applyOps
          [TokenOp.add "D", TokenOp.remove "B"]).accessTokens <
        List.indexOf "C" ((Client.mk "id" "secret" ["A", "B", "C"]).applyOps
          [TokenOp.add "D", TokenOp.remove "B"]).accessTokens) := by
  have h := C9_credential_set_invariants (Client.mk "id" "secret" ["A", "B", "C"])
    [TokenOp.add "D", TokenOp.remove "B"] (by decide)
  exact ⟨h.1, h.2 "A" "C" (by decide) (by decide)⟩

/-- Adding a token that is already present changes nothing. -/
theorem addToken_of_mem (c : Client) (t : String) (h : t ∈ c.accessTokens) :
    c.addToken t = c := by
  unfold Client.addToken
  rw [if_neg (fun hh => (indexOf_eq_neg_one_iff _ _).mp hh h)]

/-- C7: adding the same token twice is the same as adding it once, and
removing an absent token changes nothing. -/
theorem C7_add_idempotent_remove_absent_noop (c : Client) (t : String) :
    ((c.addToken t).addToken t = c.addToken t) ∧
    (t ∉ c.accessTokens → c.removeToken t = c) := by
  constructor
  · refine addToken_of_mem _ t ?_
    rw [addToken_accessTokens]
    by_cases hm : t ∈ c.accessTokens
    · rwa [if_pos hm]
    · rw [if_neg hm]
      exact List.mem_append_right _ (List.mem_singleton.mpr rfl)
  · intro hmem
    unfold Client.removeToken
    rw [if_pos ((indexOf_eq_neg_one_iff _ _).mpr hmem)]

/-- Witness for C7 at a concrete credential set. -/
theorem C7_witness :
    (((Client.mk "" "" ["a"]).addToken "b").addToken "b" =
      (Client.mk "" "" ["a"]).addToken "b") ∧
    (Client.mk "" "" ["a"]).removeToken "b" = Client.mk "" "" ["a"] := by
  have h := C7_add_idempotent_remove_absent_noop (Client.mk "" "" ["a"]) "b"
  exact ⟨h.1, h.2 (by decide)⟩

/-- C2: for a non-2xx response, the reason of the constructed
StatusError follows the resolution order the spec states — the `error`
header field when present and non-empty, otherwise the slug the JSON
body decoded to, otherwise empty; in particular a `token_expired`
header wins over an `invalid_token` body slug. -/
theorem C2_reason_resolution_order (statusCode : Nat)
    (errorHeaderValues : List String) (body : ByteString) (errTyp : ErrType)
    (decodeOk : Bool) (_hstatus : statusCode < 200 ∨ 300 ≤ statusCode) :
    (NewStatusError statusCode errorHeaderValues body errTyp decodeOk).reason =
      specReasonResolution errorHeaderValues errTyp decodeOk ∧
    (NewStatusError 401 ["token_expired"] body
        ⟨"invalid_token", [], ""⟩ true).reason = "token_expired" := by
  constructor
  · cases errorHeaderValues with
    | nil => rfl
    | cons v vs =>
      show v = specReasonResolution (v :: vs) errTyp decodeOk
      unfold specReasonResolution
      rw [if_pos (List.cons_ne_nil v vs)]
      rfl
  · rfl

/-- Witness for C2 at a concrete 401 response carrying both a header
reason and a different body slug. -/
theorem C2_witness :
    (NewStatusError 401 ["token_expired"] [123]
        ⟨"invalid_token", [], ""⟩ true).reason = "token_expired" :=
  (C2_reason_resolution_order 401 ["token_expired"] [123]
    ⟨"invalid_token", [], ""⟩ true (Or.inr (by omega))).2

/-- C3: the token-expired classifier accepts exactly the StatusError
values with status 401 and an empty captured body, or with the
token-expired reason slug; a 401 with a non-empty body and another
reason is not classified as expired. -/
theorem C3_token_expired_classification :
    (∀ e : GoError, IsTokenExpired e = true ↔
      ∃ se : StatusError, e = .statusError se ∧
        ((se.statusCode = 401 ∧ se.responseBody = []) ∨
          se.reason = TokenExpired)) ∧
    (∀ se : StatusError, se.statusCode = 401 → se.responseBody ≠ [] →
      se.reason ≠ TokenExpired →
      IsTokenExpired (.statusError se) = false) := by
  constructor
  · intro e
    cases e with
    | statusError se =>
      simp only [IsTokenExpired, Bool.or_eq_true, Bool.and_eq_true,
        beq_iff_eq, List.length_eq_zero]
      constructor
      · intro h
        exact ⟨se, rfl, h⟩
      · rintro ⟨se', heq, h⟩
        cases heq
        exact h
    | rideRequestError e =>
      simp only [IsTokenExpired]
      constructor
      · intro h; cases h
      · rintro ⟨se', heq, h⟩; cases heq
    | cancelRideError e =>
      simp only [IsTokenExpired]
      constructor
      · intro h; cases h
      · rintro ⟨se', heq, h⟩; cases heq
    | transportError msg =>
      simp only [IsTokenExpired]
      constructor
      · intro h; cases h
      · rintro ⟨se', heq, h⟩; cases heq
    | decodeError msg =>
      simp only [IsTokenExpired]
      constructor
      · intro h; cases h
      · rintro ⟨se', heq, h⟩; cases heq
  · intro se h401 hbody hreason
    simp only [IsTokenExpired, Bool.or_eq_false_iff, Bool.and_eq_false_iff,
      beq_eq_false_iff_ne, ne_eq]
    constructor
    · right
      rw [List.length_eq_zero]
      exact hbody
    · exact hreason

/-- Witness for C3: a 401 StatusError with a non-empty body and a
different reason slug is not classified as token-expired. -/
theorem C3_witness :
    IsTokenExpired (.statusError ⟨401, [1, 2], "invalid_token", [], ""⟩) =
      false :=
  C3_token_expired_classification.2 ⟨401, [1, 2], "invalid_token", [], ""⟩
    rfl (by decide) (by decide)

/-- C10: an error that is not a StatusError — a transport error, a
decode error, or one of the specialized ride errors — is classified
neither as a rate limit nor as token expiry. -/
theorem C10_non_status_error_not_classified (e : GoError)
    (h : ∀ se : StatusError, e ≠ .statusError se) :
    IsRateLimit e = false ∧ IsTokenExpired e = false := by
  cases e with
  | statusError se => exact absurd rfl (h se)
  | rideRequestError e => exact ⟨rfl, rfl⟩
  | cancelRideError e => exact ⟨rfl, rfl⟩
  | transportError msg => exact ⟨rfl, rfl⟩
  | decodeError msg => exact ⟨rfl, rfl⟩

/-- Witness for C10 at a concrete transport-level error. -/
theorem C10_witness :
    IsRateLimit (.transportError "connection refused") = false ∧
    IsTokenExpired (.transportError "connection refused") = false :=
  C10_non_status_error_not_classified (.transportError "connection refused")
    (fun se h => by cases h)

/-- Counterexample to C8 as stated: a StatusError whose reason is empty
and whose description is present renders as "status code: 500", not as
the description, so the claimed rendering rule does not hold for every
constructed classified error. -/
theorem C8_counterexample :
    StatusError.Error ⟨500, [], "", [], "only a description"⟩ =
      "status code: 500" ∧
    specErrorMessage "" "only a description" "<status error>" =
      "only a description" ∧
    StatusError.Error ⟨500, [], "", [], "only a description"⟩ ≠
      specErrorMessage "" "only a description" "<status error>" := by
  refine ⟨by decide, by decide, by decide⟩

/-- C8 amended: the ride-request and cancel-ride errors render exactly
as the claim states (reason and description joined, else whichever is
present, else a per-type fallback string), while a StatusError renders
its reason with the status code — never its description — falling back
to the status code alone. -/
theorem C8_amended_rendering :
    (∀ r : RideRequestError,
      r.Error = specErrorMessage r.errorInfo.reason r.errorInfo.description
        "<ride request error>") ∧
    (∀ ce : CancelRideError,
      ce.Error = specErrorMessage ce.errorInfo.reason ce.errorInfo.description
        "<cancel ride error>") ∧
    (∀ s : StatusError,
      s.Error = if s.reason ≠ "" then
          s.reason ++ ": status code: " ++ toString s.statusCode
        else "status code: " ++ toString s.statusCode) := by
  refine ⟨fun r => ?_, fun ce => ?_, fun s => ?_⟩
  · unfold RideRequestError.Error specErrorMessage
    by_cases hr : r.errorInfo.reason = ""
    · by_cases hd : r.errorInfo.description = ""
      · simp [hr, hd]
      · simp [hr, hd]
    · by_cases hd : r.errorInfo.description = ""
      · simp [hr, hd]
      · simp [hr, hd]
  · unfold CancelRideError.Error specErrorMessage
    by_cases hr : ce.errorInfo.reason = ""
    · by_cases hd : ce.errorInfo.description = ""
      · simp [hr, hd]
      · simp [hr, hd]
    · by_cases hd : ce.errorInfo.description = ""
      · simp [hr, hd]
      · simp [hr, hd]
  · unfold StatusError.Error
    by_cases hr : s.reason = ""
    · simp [hr]
    · simp [hr]

/-- Unfolding of `splitFields` at the empty list. -/
theorem splitFields_nil : splitFields [] = [[]] := rfl

/-- Unfolding of `splitFields` at a cons cell. -/
theorem splitFields_cons (c : Char) (cs : List Char) :
    splitFields (c :: cs) =
      if isGoSpace c then [] :: splitFields cs
      else (splitFields cs).modifyHead (fun f => c :: f) := rfl

/-- `splitFields` never yields an empty chunk list. -/
theorem splitFields_ne_nil (l : List Char) : splitFields l ≠ [] := by
  induction l with
  | nil => exact List.cons_ne_nil _ _
  | cons c cs ih =>
    rw [splitFields_cons]
    by_cases hc : isGoSpace c = true
    · rw [if_pos hc]
      exact List.cons_ne_nil _ _
    · rw [if_neg hc]
      cases hsp : splitFields cs with
      | nil => exact absurd hsp ih
      | cons f fs =>
        rw [List.modifyHead_cons]
        exact List.cons_ne_nil _ _

/-- Prepending non-space characters extends the first chunk of
`splitFields`. -/
theorem splitFields_append (pre l : List Char)
    (h : ∀ ch ∈ pre, isGoSpace ch = false) :
    splitFields (pre ++ l) = (splitFields l).modifyHead (fun f => pre ++ f) := by
  induction pre with
  | nil =>
    rw [List.nil_append]
    cases hsp : splitFields l with
    | nil => exact absurd hsp (splitFields_ne_nil l)
    | cons f fs => rw [List.modifyHead_cons, List.nil_append]
  | cons c cs ih =>
    have hc : isGoSpace c = false := h c (List.mem_cons_self c cs)
    have hcs : ∀ ch ∈ cs, isGoSpace ch = false := fun ch hch =>
      h ch (List.mem_cons_of_mem c hch)
    rw [List.cons_append, splitFields_cons,
      if_neg (by rw [hc]; exact Bool.false_ne_true), ih hcs]
    cases hsp : splitFields l with
    | nil => exact absurd hsp (splitFields_ne_nil l)
    | cons f fs =>
      rw [List.modifyHead_cons, List.modifyHead_cons, List.modifyHead_cons,
        List.cons_append]

/-- The fields of a space-separated join of non-empty space-free words
are exactly those words, in order. -/
theorem stringsFields_join (ws : List String)
    (h : ∀ w ∈ ws, w ≠ "" ∧ ∀ ch ∈ w.toList, isGoSpace ch = false) :
    stringsFields (joinSpaceSeparated ws) = ws := by
  induction ws with
  | nil => rfl
  | cons w ws ih =>
    obtain ⟨hw, hwch⟩ := h w (List.mem_cons_self w ws)
    have hws : ∀ u ∈ ws, u ≠ "" ∧ ∀ ch ∈ u.toList, isGoSpace ch = false :=
      fun u hu => h u (List.mem_cons_of_mem w hu)
    have hwnil : w.toList ≠ [] := by
      intro hh
      apply hw
      cases w with
      | mk d => cases hh; rfl
    have hwempty : (!w.toList.isEmpty) = true := by
      cases hlc : w.toList with
      | nil => exact absurd hlc hwnil
      | cons a as => rfl
    cases ws with
    | nil =>
      show stringsFields w = [w]
      unfold stringsFields
      have hsp : splitFields w.toList = [w.toList] := by
        have h2 := splitFields_append w.toList [] hwch
        rw [List.append_nil, splitFields_nil, List.modifyHead_cons,
          List.append_nil] at h2
        exact h2
      rw [hsp]
      rw [List.filter_cons, hwempty]
      simp only [if_pos, List.filter_nil, List.map_cons, List.map_nil]
      rfl
    | cons v vs =>
      have hjoin : joinSpaceSeparated (w :: v :: vs) =
          w ++ " " ++ joinSpaceSeparated (v :: vs) := rfl
      have hdata : (w ++ " " ++ joinSpaceSeparated (v :: vs)).toList =
          w.toList ++ ' ' :: (joinSpaceSeparated (v :: vs)).toList := by
        show (w ++ " " ++ joinSpaceSeparated (v :: vs)).data =
          w.data ++ ' ' :: (joinSpaceSeparated (v :: vs)).data
        rw [String.data_append, String.data_append]
        rw [List.append_assoc]
        rfl
      unfold stringsFields
      rw [hjoin, hdata, splitFields_append w.toList _ hwch]
      have hsplit : splitFields (' ' :: (joinSpaceSeparated (v :: vs)).toList) =
          [] :: splitFields (joinSpaceSeparated (v :: vs)).toList := rfl
      rw [hsplit, List.modifyHead_cons, List.append_nil, List.filter_cons,
        hwempty]
      simp only [if_pos, List.map_cons]
      have hmk : String.mk w.toList = w := rfl
      rw [hmk]
      have ihh := ih hws
      unfold stringsFields at ihh
      rw [ihh]

/-- C5: a successful (200) two-legged token response exposes
`expires_in` seconds as the duration `time.Second * expires_in`, and
splits the space-delimited scope string into the scope list in order;
in particular 3600 seconds and "public rides.read" normalize to a
3600-second duration and the list [public, rides.read]. -/
theorem C5_token_normalization :
    (∀ (statusCode : Nat) (hdr : List String) (body : ByteString)
      (errTyp : ErrType) (errOk : Bool) (g : generateTokenResponse)
      (res : GenerateTokenResponse),
      statusCode = 200 →
      GenerateToken statusCode hdr body errTyp errOk (some g) = .ok res →
      res.expires = timeSecond * g.expires ∧
      ∀ ws : List String,
        (∀ w ∈ ws, w ≠ "" ∧ ∀ ch ∈ w.toList, isGoSpace ch = false) →
        g.scopes = joinSpaceSeparated ws → res.scopes = ws) ∧
    GenerateToken 200 [] [] ErrType.zero true
        (some ⟨"tok", "bearer", 3600, "public rides.read"⟩) =
      .ok ⟨"tok", "bearer", 3600000000000, ["public", "rides.read"]⟩ := by
  constructor
  · intro statusCode hdr body errTyp errOk g res hsc hres
    subst hsc
    unfold GenerateToken at hres
    rw [if_neg (by omega)] at hres
    injection hres with hres
    subst hres
    refine ⟨rfl, fun ws hws hjoin => ?_⟩
    show stringsFields g.scopes = ws
    rw [hjoin]
    exact stringsFields_join ws hws
  · rfl

/-- Witness for C5 at the concrete wire response of the spec. -/
theorem C5_witness :
    ({ accessToken := "tok", tokenType := "bearer", expires := 3600000000000,
       scopes := ["public", "rides.read"] } : GenerateTokenResponse).expires =
      timeSecond * 3600 ∧
    ({ accessToken := "tok", tokenType := "bearer", expires := 3600000000000,
       scopes := ["public", "rides.read"] } : GenerateTokenResponse).scopes =
      ["public", "rides.read"] := by
  have h := C5_token_normalization.1 200 [] [] ErrType.zero true
    ⟨"tok", "bearer", 3600, "public rides.read"⟩
    ⟨"tok", "bearer", 3600000000000, ["public", "rides.read"]⟩ rfl
    C5_token_normalization.2
  exact ⟨h.1, h.2 ["public", "rides.read"] (by decide) (by decide)⟩

/-- Unfolding of `sendLoop` past the first of at least two tokens. -/
theorem sendLoop_cons₂ (attempt : String → Outcome) (u t2 : String)
    (ts : List String) :
    sendLoop attempt (u :: t2 :: ts) =
      if (attempt u).isNon401Response then some (attempt u)
      else sendLoop attempt (t2 :: ts) := rfl

/-- Unfolding of `sendAttempts` past the first of at least two tokens. -/
theorem sendAttempts_cons₂ (attempt : String → Outcome) (u t2 : String)
    (ts : List String) :
    sendAttempts attempt (u :: t2 :: ts) =
      if (attempt u).isNon401Response then [u]
      else u :: sendAttempts attempt (t2 :: ts) := rfl

/-- C1: dispatch tries the held tokens in insertion order — when every
token before `t` yields a 401 response or an error and `t` yields a
non-401 response, the loop returns the outcome of `t` having attempted
exactly the tokens up to and including `t`; when every token yields 401
or an error the loop attempts them all and returns the outcome of the
last one; in particular a client holding [A, B] where A yields 401 and
B yields 200 returns the 200 response having tried A then B. -/
theorem C1_multi_token_dispatch (attempt : String → Outcome) :
    (∀ (pre : List String) (t : String) (post : List String),
      (∀ u ∈ pre, (attempt u).isNon401Response = false) →
      (attempt t).isNon401Response = true →
      sendLoop attempt (pre ++ t :: post) = some (attempt t) ∧
      sendAttempts attempt (pre ++ t :: post) = pre ++ [t]) ∧
    (∀ (pre : List String) (t : String),
      (∀ u ∈ pre ++ [t], (attempt u).isNon401Response = false) →
      sendLoop attempt (pre ++ [t]) = some (attempt t) ∧
      sendAttempts attempt (pre ++ [t]) = pre ++ [t]) ∧
    (∀ (c : Client) (A B : String) (bodyA bodyB : ByteString),
      c.accessTokens = [A, B] →
      attempt A = .response 401 bodyA →
      attempt B = .response 200 bodyB →
      c.send attempt = some (.response 200 bodyB) ∧
      sendAttempts attempt c.accessTokens = [A, B]) := by
  refine ⟨?_, ?_, ?_⟩
  · intro pre t post h hsucc
    induction pre with
    | nil =>
      cases post with
      | nil => exact ⟨rfl, rfl⟩
      | cons p ps =>
        rw [List.nil_append, sendLoop_cons₂, sendAttempts_cons₂, if_pos hsucc,
          if_pos hsucc]
        exact ⟨rfl, rfl⟩
    | cons u pre ih =>
      have hu : (attempt u).isNon401Response = false :=
        h u (List.mem_cons_self u pre)
      have hrest : ∀ v ∈ pre, (attempt v).isNon401Response = false :=
        fun v hv => h v (List.mem_cons_of_mem u hv)
      have hne : pre ++ t :: post ≠ [] := by
        cases pre with
        | nil => exact List.cons_ne_nil _ _
        | cons a as => exact List.cons_ne_nil _ _
      cases hp : pre ++ t :: post with
      | nil => exact absurd hp hne
      | cons a as =>
        have step := ih hrest
        rw [hp] at step
        constructor
        · rw [List.cons_append, hp, sendLoop_cons₂, hu]
          rw [if_neg Bool.false_ne_true]
          exact step.1
        · rw [List.cons_append, hp, sendAttempts_cons₂, hu]
          rw [if_neg Bool.false_ne_true, step.2, List.cons_append]
  · intro pre t h
    induction pre with
    | nil => exact ⟨rfl, rfl⟩
    | cons u pre ih =>
      have hu : (attempt u).isNon401Response = false :=
        h u (List.mem_cons_self u _)
      have hrest : ∀ v ∈ pre ++ [t], (attempt v).isNon401Response = false :=
        fun v hv => h v (List.mem_cons_of_mem u hv)
      have hne : pre ++ [t] ≠ [] := by
        cases pre with
        | nil => exact List.cons_ne_nil _ _
        | cons a as => exact List.cons_ne_nil _ _
      cases hp : pre ++ [t] with
      | nil => exact absurd hp hne
      | cons a as =>
        have step := ih hrest
        rw [hp] at step
        constructor
        · rw [List.cons_append, hp, sendLoop_cons₂, hu]
          rw [if_neg Bool.false_ne_true]
          exact step.1
        · rw [List.cons_append, hp, sendAttempts_cons₂, hu]
          rw [if_neg Bool.false_ne_true, step.2]
  · intro c A B bodyA bodyB hc hA hB
    have h401 : (attempt A).isNon401Response = false := by
      rw [hA]; rfl
    constructor
    · show sendLoop attempt c.accessTokens = _
      rw [hc, sendLoop_cons₂, h401, if_neg Bool.false_ne_true]
      show some (attempt B) = _
      rw [hB]
    · rw [hc, sendAttempts_cons₂, h401, if_neg Bool.false_ne_true]
      rfl

/-- Witness for C1: the two-token fallback at a concrete attempt
function where token A draws a 401 and token B a 200. -/
theorem C1_witness :
    (Client.mk "" "" ["A", "B"]).send
        (fun t => if t = "B" then .response 200 [] else .response 401 []) =
      some (.response 200 []) ∧
    sendAttempts
        (fun t => if t = "B" then .response 200 [] else .response 401 [])
        ["A", "B"] = ["A", "B"] := by
  have h := (C1_multi_token_dispatch
      (fun t => if t = "B" then .response 200 [] else .response 401 [])).2.2
    (Client.mk "" "" ["A", "B"]) "A" "B" [] [] rfl (by decide) (by decide)
  exact h

/-- C6 divergence: decoding a webhook body whose `event_id` is
"sandboxevent_123" and whose `event_type` is "ride.status.updated"
succeeds, yet the resulting event is not flagged as sandbox, because
`Event.UnmarshalJSON` overwrites the event id field with the event type
before `Event.IsSandbox` runs its prefix test; the sandbox prefix does
hold of the wire `event_id` itself. -/
theorem C6_sandbox_flag_divergence :
    Event.UnmarshalJSON (fun _ => none)
        ⟨"sandboxevent_123", "https://example.invalid/hook", "",
          "ride.status.updated", ⟨[]⟩⟩ =
      some ⟨"ride.status.updated", "https://example.invalid/hook", none, "",
        ⟨[]⟩⟩ ∧
    stringHasPrefix "sandboxevent_123" SandboxEventPrefix = true ∧
    Event.IsSandbox ⟨"ride.status.updated", "https://example.invalid/hook",
        none, "", ⟨[]⟩⟩ = false := by
  refine ⟨rfl, by decide, by decide⟩

/-- `Char.toNat` is injective. -/
theorem charToNat_injective : Function.Injective Char.toNat :=
  fun _ _ h => Char.ext (UInt32.ext h)

/-- The base64 alphabet has no repeated characters: `b64char` is
injective on six-bit values. -/
theorem b64char_lt_inj :
    ∀ m, m < 64 → ∀ n, n < 64 → b64char m = b64char n → m = n := by decide

/-- No six-bit value encodes to the padding character. -/
theorem b64char_ne_pad : ∀ n, n < 64 → b64char n ≠ '=' := by decide

/-- Base64 encoding is injective on byte lists. -/
theorem base64Chars_inj :
    ∀ (x y : List Nat), (∀ b ∈ x, b < 256) → (∀ b ∈ y, b < 256) →
      base64Chars x = base64Chars y → x = y
  | [], [], _, _, _ => rfl
  | [], [_], _, _, h => List.noConfusion h
  | [], [_, _], _, _, h => List.noConfusion h
  | [], _ :: _ :: _ :: _, _, _, h => List.noConfusion h
  | [_], [], _, _, h => List.noConfusion h
  | [_, _], [], _, _, h => List.noConfusion h
  | _ :: _ :: _ :: _, [], _, _, h => List.noConfusion h
  | [a1], [c1], hx, hy, h => by
    have ha1 : a1 < 256 := hx a1 (List.mem_singleton.mpr rfl)
    have hc1 : c1 < 256 := hy c1 (List.mem_singleton.mpr rfl)
    have h1 : b64char (a1 / 4) = b64char (c1 / 4) :=
      congrArg (fun l => l.getD 0 '?') h
    have h2 : b64char (a1 % 4 * 16) = b64char (c1 % 4 * 16) :=
      congrArg (fun l => l.getD 1 '?') h
    have e1 := b64char_lt_inj _ (by omega) _ (by omega) h1
    have e2 := b64char_lt_inj _ (by omega) _ (by omega) h2
    have : a1 = c1 := by omega
    rw [this]
  | [a1], [c1, c2], hx, hy, h => by
    have hc2 : c2 < 256 := hy c2 (by simp)
    have h3 : ('=' : Char) = b64char (c2 % 16 * 4) :=
      congrArg (fun l => l.getD 2 '?') h
    exact absurd h3.symm (b64char_ne_pad _ (by omega))
  | [a1], c1 :: c2 :: c3 :: cr, hx, hy, h => by
    have hc3 : c3 < 256 := hy c3 (by simp)
    have h4 : ('=' : Char) = b64char (c3 % 64) :=
      congrArg (fun l => l.getD 3 '?') h
    exact absurd h4.symm (b64char_ne_pad _ (by omega))
  | [a1, a2], [c1], hx, hy, h => by
    have ha2 : a2 < 256 := hx a2 (by simp)
    have h3 : b64char (a2 % 16 * 4) = ('=' : Char) :=
      congrArg (fun l => l.getD 2 '?') h
    exact absurd h3 (b64char_ne_pad _ (by omega))
  | [a1, a2], [c1, c2], hx, hy, h => by
    have ha1 : a1 < 256 := hx a1 (by simp)
    have ha2 : a2 < 256 := hx a2 (by simp)
    have hc1 : c1 < 256 := hy c1 (by simp)
    have hc2 : c2 < 256 := hy c2 (by simp)
    have h1 : b64char (a1 / 4) = b64char (c1 / 4) :=
      congrArg (fun l => l.getD 0 '?') h
    have h2 : b64char (a1 % 4 * 16 + a2 / 16) = b64char (c1 % 4 * 16 + c2 / 16) :=
      congrArg (fun l => l.getD 1 '?') h
    have h3 : b64char (a2 % 16 * 4) = b64char (c2 % 16 * 4) :=
      congrArg (fun l => l.getD 2 '?') h
    have e1 := b64char_lt_inj _ (by omega) _ (by omega) h1
    have e2 := b64char_lt_inj _ (by omega) _ (by omega) h2
    have e3 := b64char_lt_inj _ (by omega) _ (by omega) h3
    have : a1 = c1 ∧ a2 = c2 := by omega
    rw [this.1, this.2]
  | [a1, a2], c1 :: c2 :: c3 :: cr, hx, hy, h => by
    have hc3 : c3 < 256 := hy c3 (by simp)
    have h4 : ('=' : Char) = b64char (c3 % 64) :=
      congrArg (fun l => l.getD 3 '?') h
    exact absurd h4.symm (b64char_ne_pad _ (by omega))
  | a1 :: a2 :: a3 :: ar, [c1], hx, hy, h => by
    have ha3 : a3 < 256 := hx a3 (by simp)
    have h4 : b64char (a3 % 64) = ('=' : Char) :=
      congrArg (fun l => l.getD 3 '?') h
    exact absurd h4 (b64char_ne_pad _ (by omega))
  | a1 :: a2 :: a3 :: ar, [c1, c2], hx, hy, h => by
    have ha3 : a3 < 256 := hx a3 (by simp)
    have h4 : b64char (a3 % 64) = ('=' : Char) :=
      congrArg (fun l => l.getD 3 '?') h
    exact absurd h4 (b64char_ne_pad _ (by omega))
  | a1 :: a2 :: a3 :: ar, c1 :: c2 :: c3 :: cr, hx, hy, h => by
    have ha1 : a1 < 256 := hx a1 (by simp)
    have ha2 : a2 < 256 := hx a2 (by simp)
    have ha3 : a3 < 256 := hx a3 (by simp)
    have hc1 : c1 < 256 := hy c1 (by simp)
    have hc2 : c2 < 256 := hy c2 (by simp)
    have hc3 : c3 < 256 := hy c3 (by simp)
    have h1 : b64char (a1 / 4) = b64char (c1 / 4) :=
      congrArg (fun l => l.getD 0 '?') h
    have h2 : b64char (a1 % 4 * 16 + a2 / 16) = b64char (c1 % 4 * 16 + c2 / 16) :=
      congrArg (fun l => l.getD 1 '?') h
    have h3 : b64char (a2 % 16 * 4 + a3 / 64) = b64char (c2 % 16 * 4 + c3 / 64) :=
      congrArg (fun l => l.getD 2 '?') h
    have h4 : b64char (a3 % 64) = b64char (c3 % 64) :=
      congrArg (fun l => l.getD 3 '?') h
    have h5 : base64Chars ar = base64Chars cr :=
      congrArg (List.drop 4) h
    have e1 := b64char_lt_inj _ (by omega) _ (by omega) h1
    have e2 := b64char_lt_inj _ (by omega) _ (by omega) h2
    have e3 := b64char_lt_inj _ (by omega) _ (by omega) h3
    have e4 := b64char_lt_inj _ (by omega) _ (by omega) h4
    have hrest : ar = cr :=
      base64Chars_inj ar cr (fun b hb => hx b (by simp [hb]))
        (fun b hb => hy b (by simp [hb])) h5
    have : a1 = c1 ∧ a2 = c2 ∧ a3 = c3 := by omega
    rw [this.1, this.2.1, this.2.2, hrest]

/-- Every byte of a SHA-256 digest is below 256. -/
theorem sha256_bytes_lt (msg : List Nat) : ∀ b ∈ sha256 msg, b < 256 := by
  unfold sha256
  generalize (chunks 64 (shaPad msg)).foldl compressBlock shaH0 = hs
  induction hs with
  | nil => intro b hb; cases hb
  | cons w ws ih =>
    intro b hb
    rw [List.foldr_cons] at hb
    rcases List.mem_append.mp hb with hmem | hmem
    · simp only [wordBytes, List.mem_cons, List.mem_singleton] at hmem
      rcases hmem with rfl | rfl | rfl | hmem
      · omega
      · omega
      · omega
      · rcases hmem with rfl | hmem
        · omega
        · cases hmem
    · exact ih b hmem

/-- C4 support: verification succeeds exactly when the signature equals
the bytes of the base64-encoded HMAC-SHA256 digest of the body under
the verification token, and the function is total. -/
theorem VerifySignature_iff_eq (body sig key : List Nat) :
    (VerifySignature body sig key = true ↔
      sig = stringBytes (base64StdEncode (hmacSha256 key body))) ∧
    (VerifySignature body sig key = true ∨ VerifySignature body sig key = false) := by
  constructor
  · unfold VerifySignature hmacEqual
    rw [beq_iff_eq]
    exact eq_comm
  · cases hb : VerifySignature body sig key
    · exact Or.inr rfl
    · exact Or.inl rfl

/-- C4 support: flipping any single byte of a verifying signature turns
verification false. -/
theorem VerifySignature_flip_sig_byte (body sig key : List Nat) (i : Nat)
    (v : Nat) (hi : i < sig.length) (hv : sig.get ⟨i, hi⟩ ≠ v)
    (hok : VerifySignature body sig key = true) :
    VerifySignature body (sig.set i v) key = false := by
  have hs := ((VerifySignature_iff_eq body sig key).1).mp hok
  have hne : sig.set i v ≠ sig := by
    intro hh
    apply hv
    have hq : (sig.set i v)[i]? = sig[i]? := congrArg (fun l => l[i]?) hh
    rw [List.getElem?_set_self hi, List.getElem?_eq_getElem hi] at hq
    rw [List.get_eq_getElem]
    exact (Option.some.inj hq).symm
  rw [Bool.eq_false_iff]
  intro hok'
  have hs' := ((VerifySignature_iff_eq body (sig.set i v) key).1).mp hok'
  exact hne (hs'.trans hs.symm)

/-- C4 support: flipping bytes of the body or of the key turns
verification false whenever the flip changes the HMAC digest. (That a
single-byte flip always changes the digest is exactly the absence of
single-byte-flip collisions in HMAC-SHA256, which is not provable.) -/
theorem VerifySignature_changed_digest (body body' sig key key' : List Nat)
    (hd : hmacSha256 key' body' ≠ hmacSha256 key body)
    (hok : VerifySignature body sig key = true) :
    VerifySignature body' sig key' = false := by
  rw [Bool.eq_false_iff]
  intro hok'
  have h1 := ((VerifySignature_iff_eq body sig key).1).mp hok
  have h2 := ((VerifySignature_iff_eq body' sig key').1).mp hok'
  have henc : stringBytes (base64StdEncode (hmacSha256 key' body')) =
      stringBytes (base64StdEncode (hmacSha256 key body)) := h2.symm.trans h1
  apply hd
  have hchars : base64Chars (hmacSha256 key' body') =
      base64Chars (hmacSha256 key body) := by
    have := List.map_injective_iff.mpr charToNat_injective henc
    exact this
  exact base64Chars_inj _ _
    (fun b hb => sha256_bytes_lt _ b hb)
    (fun b hb => sha256_bytes_lt _ b hb) hchars
